import Mathlib

/-!
Verification of the cellrank kernel core: the `ConnectivityMixin` density
normalization (`cellrank/tl/kernels/_mixins.py`) and the CytoTRACE scoring
pipeline (`cellrank/tl/kernels/_cytotrace_kernel.py`).

Numeric conventions: machine floats are modelled by exact rationals; the two
places where IEEE special values can arise in the source are modelled
explicitly: `FV` is a float value that can be `inf`, `-inf` or `nan`
(used for `_density_normalize`, where `1.0 / q` with `q = 0` yields `inf`
in numpy), and `Option ℚ` is a float that can be `nan` (used for the
correlation vector and the min-max normalized score, where `0.0 / 0.0`
yields `nan`).
-/

/-- A float value as produced by numpy: either a finite number (modelled
exactly as a rational), positive or negative infinity, or NaN. -/
inductive FV where
  | num (q : ℚ)
  | inf
  | ninf
  | nan
deriving DecidableEq, Repr

/-- IEEE-754 multiplication on `FV`: NaN is absorbing, infinity times zero is
NaN, infinity times a nonzero finite value follows the sign rules. -/
def fvMul : FV → FV → FV
  | .nan, _ => .nan
  | .num _, .nan => .nan
  | .inf, .nan => .nan
  | .ninf, .nan => .nan
  | .num a, .num b => .num (a * b)
  | .num a, .inf => if a = 0 then .nan else if 0 < a then .inf else .ninf
  | .num a, .ninf => if a = 0 then .nan else if 0 < a then .ninf else .inf
  | .inf, .num b => if b = 0 then .nan else if 0 < b then .inf else .ninf
  | .ninf, .num b => if b = 0 then .nan else if 0 < b then .ninf else .inf
  | .inf, .inf => .inf
  | .inf, .ninf => .ninf
  | .ninf, .inf => .ninf
  | .ninf, .ninf => .inf

/-- numpy's `1.0 / q` on a float64: `1.0 / 0.0` is `inf` (with only a
non-fatal `RuntimeWarning`), otherwise the exact reciprocal. -/
def recipFV (q : ℚ) : FV :=
  if q = 0 then .inf else .num (1 / q)

/-- Column sum `q[j] = conn.sum(axis=0)[j]` of the stored connectivity
matrix, as computed in `ConnectivityMixin._density_normalize`. -/
def colSum {n : ℕ} (conn : Matrix (Fin n) (Fin n) ℚ) (j : Fin n) : ℚ :=
  ∑ i, conn i j

/-- Embedding of `ConnectivityMixin._density_normalize`:
`q = np.asarray(self._conn.sum(axis=0)).squeeze()` (column sums),
`Q = spdiags(1.0 / q, 0, n, n)`, result `Q @ matrix @ Q`.
Since `Q` is a sparse diagonal matrix, the sparse product scales each stored
entry of `matrix`: entry `(i, j)` becomes `(1/q i) * matrix i j * (1/q j)`,
while entries absent from the sparse structure (zeros) stay zero even when a
scaling factor is infinite (sparse products only combine stored entries). -/
def densityNormalize {n : ℕ} (conn M : Matrix (Fin n) (Fin n) ℚ) :
    Matrix (Fin n) (Fin n) FV :=
  Matrix.of fun i j =>
    if M i j = 0 then .num 0
    else fvMul (fvMul (recipFV (colSum conn i)) (.num (M i j))) (recipFV (colSum conn j))

/-- Row sum `q[i] = sum_j conn[i,j]` as the spec's words describe it. -/
def rowSum {n : ℕ} (conn : Matrix (Fin n) (Fin n) ℚ) (i : Fin n) : ℚ :=
  ∑ j, conn i j

/-- Follows the spec's words (refinement reference, not the source): the spec
states `q[i] = sum_j conn[i,j]` (row sums of the connectivity matrix) and the
result `Q · matrix · Q` with `Q = diag(1/q)`. -/
def densityNormalizeRowSpec {n : ℕ} (conn M : Matrix (Fin n) (Fin n) ℚ) :
    Matrix (Fin n) (Fin n) FV :=
  Matrix.of fun i j =>
    if M i j = 0 then .num 0
    else fvMul (fvMul (recipFV (rowSum conn i)) (.num (M i j))) (recipFV (rowSum conn j))

theorem fvMul_num_num (a b : ℚ) : fvMul (.num a) (.num b) = .num (a * b) := rfl

/-- C2 counterexample: on the asymmetric connectivity matrix
`[[1,2],[3,4]]` (row sums `[3,7]`, column sums `[4,6]`), normalizing the
all-ones matrix, the source's result (which uses `conn.sum(axis=0)`, the
column sums) differs from the spec's row-sum formula at entry `(0,0)`:
the code yields `1/16 = 1/(4·4)` while the spec's words demand
`1/9 = 1/(3·3)`. -/
theorem density_normalize_not_row_sums :
    densityNormalize !![(1 : ℚ), 2; 3, 4] !![(1 : ℚ), 1; 1, 1] 0 0 ≠
      densityNormalizeRowSpec !![(1 : ℚ), 2; 3, 4] !![(1 : ℚ), 1; 1, 1] 0 0 := by
  norm_num [densityNormalize, densityNormalizeRowSpec, colSum, rowSum, recipFV,
    fvMul, Fin.sum_univ_succ]

/-- C2 (amended): `_density_normalize` computes the degree vector as the
COLUMN sums `q[j] = sum_i conn[i,j]` (`conn.sum(axis=0)`), builds
`Q = diag(1/q)`, and returns exactly the matrix product `Q · matrix · Q`
whenever no degree is zero. -/
theorem density_normalize_col_sums_matrix_form {n : ℕ}
    (conn M : Matrix (Fin n) (Fin n) ℚ) (h : ∀ j, colSum conn j ≠ 0) (i j : Fin n) :
    densityNormalize conn M i j =
      .num ((Matrix.diagonal (fun k => 1 / colSum conn k) * M *
        Matrix.diagonal (fun k => 1 / colSum conn k)) i j) := by
  have hij : (Matrix.diagonal (fun k => 1 / colSum conn k) * M *
      Matrix.diagonal (fun k => 1 / colSum conn k)) i j =
      (1 / colSum conn i) * M i j * (1 / colSum conn j) := by
    rw [Matrix.mul_diagonal, Matrix.diagonal_mul]
  rw [hij]
  by_cases hM : M i j = 0
  · simp [densityNormalize, hM]
  · simp [densityNormalize, hM, recipFV, h i, h j, fvMul_num_num]

/-- Witness for `density_normalize_col_sums_matrix_form` on the concrete
asymmetric matrix from the counterexample. -/
theorem density_normalize_col_sums_matrix_form_w :
    densityNormalize !![(1 : ℚ), 2; 3, 4] !![(1 : ℚ), 1; 1, 1] 0 0 =
      .num ((Matrix.diagonal (fun k => 1 / colSum !![(1 : ℚ), 2; 3, 4] k) *
        !![(1 : ℚ), 1; 1, 1] *
        Matrix.diagonal (fun k => 1 / colSum !![(1 : ℚ), 2; 3, 4] k)) 0 0) :=
  density_normalize_col_sums_matrix_form !![(1 : ℚ), 2; 3, 4] !![(1 : ℚ), 1; 1, 1]
    (by intro j; fin_cases j <;> norm_num [colSum, Fin.sum_univ_succ]) 0 0

/-- C3 counterexample: on a connectivity matrix with an isolated node
(node 2 has degree 0), `_density_normalize` of the all-ones matrix does not
raise: it silently returns a result containing `inf` (numpy's `1.0 / 0.0`
only emits a `RuntimeWarning`). Entry `(0,2)` of the result is `inf`,
refuting the claim that an error is signalled. -/
theorem density_normalize_isolated_returns_inf :
    densityNormalize !![(1 : ℚ), 1, 0; 1, 1, 0; 0, 0, 0]
      !![(1 : ℚ), 1, 1; 1, 1, 1; 1, 1, 1] 0 2 = FV.inf := by
  norm_num [densityNormalize, colSum, recipFV, fvMul, Fin.sum_univ_succ]

/-- C3 (amended): `_density_normalize` performs no zero-degree check; when
node `i` is isolated (column sum 0) and the matrix entry `(i, j)` is positive
with node `j` of positive degree, the returned matrix contains `inf` at
`(i, j)` instead of an error being raised. -/
theorem density_normalize_isolated_inf_general {n : ℕ}
    (conn M : Matrix (Fin n) (Fin n) ℚ) (i j : Fin n)
    (h0 : colSum conn i = 0) (hM : 0 < M i j) (hj : 0 < colSum conn j) :
    densityNormalize conn M i j = FV.inf := by
  have hMne : M i j ≠ 0 := ne_of_gt hM
  have hjne : colSum conn j ≠ 0 := ne_of_gt hj
  have hinv : 0 < 1 / colSum conn j := by positivity
  have hinvne : (1 : ℚ) / colSum conn j ≠ 0 := ne_of_gt hinv
  simp only [densityNormalize, Matrix.of_apply, if_neg hMne, recipFV, if_pos h0,
    if_neg hjne]
  rw [show fvMul FV.inf (FV.num (M i j)) = FV.inf by simp [fvMul, hMne, hM]]
  simp [fvMul, hinvne, hinv, hjne, hj]

/-- Witness for `density_normalize_isolated_inf_general` at the concrete
isolated-node input of the counterexample, at entry `(2, 0)`. -/
theorem density_normalize_isolated_inf_general_w :
    densityNormalize !![(1 : ℚ), 1, 0; 1, 1, 0; 0, 0, 0]
      !![(1 : ℚ), 1, 1; 1, 1, 1; 1, 1, 1] 2 0 = FV.inf :=
  density_normalize_isolated_inf_general _ _ 2 0
    (by norm_num [colSum, Fin.sum_univ_succ])
    (by norm_num [Matrix.cons_val_zero, Matrix.cons_val_one, Matrix.head_cons,
      Matrix.vecHead, Matrix.vecTail])
    (by norm_num [colSum, Fin.sum_univ_succ])

/-! ## CytoTRACE scoring pipeline (`_cytotrace_kernel.py`)

The annotated-data container is modelled as a labeled-matrix store:
matrices are lists of rows of rationals; `obs`/`var`/`uns` metadata are
association lists keyed by column name. The external collaborators that the
spec excludes (`_correlation_test`, `scipy.stats.gmean`/`hmean`) enter the
model as function parameters, so every theorem below holds for all of their
possible behaviours. -/

/-- Parameters record written to `adata.uns[Key.cytotrace("params")]`. -/
structure ParamsRecord where
  aggregation : String
  layer : Option String
  useRaw : Bool
  nPosGenes : ℕ
  nNegGenes : ℕ
deriving DecidableEq, Repr

/-- Labeled-matrix store (`anndata.AnnData`): primary matrix `X`
(rows = cells, columns = genes, aligned with `varNames`), named layers,
optional raw counterpart (with its own gene index), and per-cell (`obs`),
per-gene (`var`) and unstructured (`uns`) metadata columns. `Option ℚ`
metadata entries model floats that may be NaN (`none`). -/
structure AnnDataModel where
  varNames : List String
  X : List (List ℚ)
  layers : List (String × List (List ℚ))
  raw : Option (List String × List (List ℚ))
  obsCols : List (String × List (Option ℚ))
  varColsQ : List (String × List (Option ℚ))
  varColsB : List (String × List Bool)
  uns : List (String × ParamsRecord)
deriving DecidableEq, Repr

/-- Model of `Key.cytotrace`: stable key names in the cytotrace namespace. Modelled
from the spec and the source docstring of `compute_cytotrace`
(`'ct_score'`, `'ct_pseudotime'`, `'ct_num_exp_genes'`, `'ct_gene_corr'`,
`'ct_pos_correlates'`, `'ct_neg_correlates'`); `cellrank/_key.py` itself is
an external module. -/
def keyCytotrace (s : String) : String :=
  "ct_" ++ s

/-- Lookup of a named column in a metadata table (`df[key]` / `uns[key]`):
the value at the first matching key. -/
def lookupCol {α : Type} (xs : List (String × α)) (k : String) : Option α :=
  match xs with
  | [] => none
  | p :: rest => if p.1 = k then some p.2 else lookupCol rest k

/-- Assignment of a named column into a metadata table
(`df[key] = value` / `uns[key] = value`): replaces the column when the key
exists, appends it otherwise. -/
def setCol {α : Type} (xs : List (String × α)) (k : String) (v : α) : List (String × α) :=
  if xs.any (fun p => decide (p.1 = k)) then
    xs.map (fun p => if p.1 = k then (k, v) else p)
  else xs ++ [(k, v)]

/-- Errors raised by `compute_cytotrace` and `_compute_score`. -/
inductive CtError where
  | invalidAggregation (s : String)
  | layerKeyError (layer : Option String)
  | nonPositiveGenes (ascending : Bool) (n : ℤ)
  | nanInTopGenes (ascending : Bool) (count : ℕ)
  | noGenesSelected
  | layerLookupKeyError (layer : Option String)
deriving DecidableEq, Repr

/-- Aggregation modes of `CytoTRACEAggregation` (a `ModeEnum` whose members
are the lowercase mode names). -/
inductive Aggregation where
  | mean
  | median
  | gmean
  | hmean
deriving DecidableEq, Repr

/-- String value of an aggregation mode (`ModeEnum` string values). -/
def Aggregation.toName : Aggregation → String
  | .mean => "mean"
  | .median => "median"
  | .gmean => "gmean"
  | .hmean => "hmean"

/-- Conversion `CytoTRACEAggregation(aggregation)`: converts a mode name to the enum,
failing on unknown values (the enum constructor raises for them). -/
def Aggregation.ofString (s : String) : Except CtError Aggregation :=
  if s = "mean" then .ok .mean
  else if s = "median" then .ok .median
  else if s = "gmean" then .ok .gmean
  else if s = "hmean" then .ok .hmean
  else .error (.invalidAggregation s)

/-- Comparison of gene-correlation pairs by their correlation value. -/
def sndLe (a b : String × ℚ) : Prop :=
  a.2 ≤ b.2

instance : DecidableRel sndLe := fun a b => inferInstanceAs (Decidable (a.2 ≤ b.2))

instance : IsTotal (String × ℚ) sndLe :=
  ⟨fun a b => le_total a.2 b.2⟩

instance : IsTrans (String × ℚ) sndLe :=
  ⟨fun _ _ _ hab hbc => le_trans hab hbc⟩

/-- The non-NaN entries of the correlation series in original order — the
paired `non_nans` / `non_nan_idx` arrays of pandas `nargsort` (each entry
carries its label, which stands for its original index). -/
def nonNanPairs (corr : List (String × Option ℚ)) : List (String × ℚ) :=
  corr.filterMap (fun p => p.2.map (fun q => (p.1, q)))

/-- The non-NaN entries of the correlation series, stably sorted by
ascending correlation value. -/
def sortedNonNan (corr : List (String × Option ℚ)) : List (String × ℚ) :=
  List.insertionSort sndLe (nonNanPairs corr)

/-- The non-NaN entries sorted descending, as pandas `nargsort` computes a
descending sort: it reverses the values together with their indices, runs
the ascending argsort, and reverses the resulting indexer again. Under a
stable underlying sort, this double reversal keeps equal values in their
original relative order. -/
def sortedNonNanDesc (corr : List (String × Option ℚ)) : List (String × ℚ) :=
  (List.insertionSort sndLe (nonNanPairs corr).reverse).reverse

/-- Index labels of the NaN entries of the correlation series, in original
order. -/
def nanNames (corr : List (String × Option ℚ)) : List String :=
  (corr.filter (fun p => p.2.isNone)).map Prod.fst

/-- Embedding of `gene_corr.sort_values(ascending=ascending).index` via
pandas `nargsort` (`pandas.core.sorting.nargsort`): for `ascending=False`
the non-NaN values and their indices are reversed before the ascending
argsort and the indexer is reversed after, so descending sorts are stable
too; NaN labels are placed last (`na_position="last"`) in original order.
The underlying argsort is modelled as stable; pandas's default
`kind="quicksort"` strictly leaves the order of equal values unspecified. -/
def sortValues (corr : List (String × Option ℚ)) (ascending : Bool) : List String :=
  (if ascending then sortedNonNan corr else sortedNonNanDesc corr).map Prod.fst
    ++ nanNames corr

/-- Lines 150–151 of `_cytotrace_kernel.py`: sorted gene index, restricted to
genes present in `adata.var_names`, truncated to the requested count. -/
def topGenesOf (corr : List (String × Option ℚ)) (varNames : List String)
    (ascending : Bool) (nTop : ℕ) : List String :=
  ((sortValues corr ascending).filter (fun g => decide (g ∈ varNames))).take nTop

/-- Whether `gene_corr.loc[g]` is NaN. -/
def corrIsNaN (corr : List (String × Option ℚ)) (g : String) : Bool :=
  match lookupCol corr g with
  | some none => true
  | _ => false

/-- Lines 146–166 of `_cytotrace_kernel.py` (the selection part of
`_compute_score`): rejects a non-positive requested count, computes the top
slice, rejects it when it contains NaN correlations or is empty; a slice
shorter than requested only triggers a non-fatal warning and is returned. -/
def selectTopGenes (corr : List (String × Option ℚ)) (varNames : List String)
    (ascending : Bool) (nTopGenes : ℤ) : Except CtError (List String) :=
  if nTopGenes ≤ 0 then .error (.nonPositiveGenes ascending nTopGenes)
  else
    let topGenes := topGenesOf corr varNames ascending nTopGenes.toNat
    let invalidGenes := (topGenes.filter (fun g => corrIsNaN corr g)).length
    if invalidGenes ≠ 0 then .error (.nanInTopGenes ascending invalidGenes)
    else if topGenes.isEmpty then .error .noGenesSelected
    else .ok topGenes

/-- Lines 169–172: `adata[:, top_genes].X` when `layer == "X"`, otherwise
`adata[:, top_genes].layers[layer]`; indexing `layers` with `None` or with a
missing name raises `KeyError`. -/
def getLayerMatrix (A : AnnDataModel) (layer : Option String) :
    Except CtError (List (List ℚ)) :=
  match layer with
  | some "X" => .ok A.X
  | none => .error (.layerLookupKeyError none)
  | some s =>
    match lookupCol A.layers s with
    | some m => .ok m
    | none => .error (.layerLookupKeyError (some s))

/-- Position of gene `g` in the gene index (`adata.var_names.get_loc`);
only applied to genes present in the index. -/
def colIdx (varNames : List String) (g : String) : ℕ :=
  match varNames with
  | [] => 0
  | v :: rest => if v = g then 0 else colIdx rest g + 1

/-- Column sub-matrix `adata[:, top_genes]`: for each cell row, the values of
the selected genes in selection order. -/
def subMatrix (mat : List (List ℚ)) (varNames : List String)
    (topGenes : List String) : List (List ℚ) :=
  mat.map (fun row => topGenes.map (fun g => row.getD (colIdx varNames g) 0))

/-- Arithmetic mean of a row (`imputed_exp.mean(axis=1)`). -/
def meanQ (xs : List ℚ) : ℚ :=
  xs.sum / xs.length

/-- Model of `np.median` of a row: middle element of the sorted row, or the average of
the two middle elements for even length (empty rows cannot occur: the
selection is never empty). -/
def medianQ (xs : List ℚ) : ℚ :=
  let s := List.insertionSort (fun a b : ℚ => a ≤ b) xs
  if xs.length % 2 = 1 then s.getD (xs.length / 2) 0
  else (s.getD (xs.length / 2 - 1) 0 + s.getD (xs.length / 2) 0) / 2

/-- Lines 176–188: per-cell aggregation of the selected genes' expression.
`gmean` and `hmean` are `scipy.stats` library calls, passed in as function
parameters (the spec treats them as external collaborators); the sparse
densification step does not change values. The trailing
`NotImplementedError` branch of the source is unreachable once the mode has
been converted to the enum. -/
def aggregate (agg : Aggregation) (gm hm : List ℚ → ℚ) (sub : List (List ℚ)) : List ℚ :=
  match agg with
  | .mean => sub.map meanQ
  | .median => sub.map medianQ
  | .gmean => sub.map gm
  | .hmean => sub.map hm

/-- Embedding of `CytoTRACEKernel._compute_score`: top-gene selection (lines 146–166),
then expression lookup for the requested layer (lines 169–174), then
aggregation (lines 176–189). Returns the per-cell score and the selected
genes. -/
def computeScore (A : AnnDataModel) (geneCorr : List (String × Option ℚ))
    (layer : Option String) (agg : Aggregation) (gm hm : List ℚ → ℚ)
    (ascending : Bool) (nTopGenes : ℤ) : Except CtError (List ℚ × List String) :=
  match selectTopGenes geneCorr A.varNames ascending nTopGenes with
  | .error e => .error e
  | .ok topGenes =>
    match getLayerMatrix A layer with
    | .error e => .error e
    | .ok mat => .ok (aggregate agg gm hm (subMatrix mat A.varNames topGenes), topGenes)

/-- Minimum of a numpy array (`arr.min()`); arbitrary on the empty array,
which cannot occur for a store with at least one cell. -/
def minQ (xs : List ℚ) : ℚ :=
  xs.foldl min (xs.headD 0)

/-- Maximum of a numpy array (`arr.max()` / `np.max`). -/
def maxQ (xs : List ℚ) : ℚ :=
  xs.foldl max (xs.headD 0)

/-- Lines 299–300: `cytotrace_score -= cytotrace_score.min()` followed by
`cytotrace_score /= cytotrace_score.max()`. When all cells tie, every
shifted entry and the divisor are `0.0`, and `0.0 / 0.0` is NaN (`none`)
in IEEE arithmetic — numpy only emits a `RuntimeWarning`. -/
def minmaxNormalize (xs : List ℚ) : List (Option ℚ) :=
  let m := minQ xs
  let shifted := xs.map (fun x => x - m)
  let mx := maxQ shifted
  shifted.map (fun x => if mx = 0 then none else some (x / mx))

/-- Line 261: `layer not in (None, "X") and layer not in self.adata.layers`
— the upfront validation raises `KeyError` exactly when this is `true`. -/
def shouldRaiseLayer (layer : Option String)
    (layers : List (String × List (List ℚ))) : Bool :=
  match layer with
  | none => false
  | some s => if s = "X" then false else !(layers.any (fun p => decide (p.1 = s)))

/-- Line 267: `adata.raw if use_raw else adata` — the gene index and matrix
used for the gene-count and correlation steps (with `use_raw` already
downgraded when `adata.raw` is `None`). -/
def mrawOf (A : AnnDataModel) (useRaw : Bool) : List String × List (List ℚ) :=
  if useRaw then A.raw.getD (A.varNames, A.X) else (A.varNames, A.X)

/-- Line 274: `(adata_mraw.X > 0).sum(axis=1)` — the number of genes with
positive expression per cell. -/
def numExpGenesOf (X : List (List ℚ)) : List ℕ :=
  X.map (fun row => (row.filter (fun x => decide (0 < x))).length)

/-- Lines 277–281: the per-gene correlation series, indexed by the gene names
of the raw-or-primary matrix; `_correlation_test` is an external routine
(passed in as `corrFn`) that may return NaN (`none`) for zero-variance
genes. -/
def geneCorrOf (A : AnnDataModel) (corrFn : List (List ℚ) → List ℕ → List (Option ℚ))
    (useRaw : Bool) : List (String × Option ℚ) :=
  ((mrawOf A useRaw).1).zip (corrFn (mrawOf A useRaw).2 (numExpGenesOf (mrawOf A useRaw).2))

/-- All scoring arrays computed by `compute_cytotrace` before any store
write: per-cell gene counts, the correlation series, the normalized score,
the selected positive (and optionally negative) gene lists, the effective
`use_raw` flag and the aggregation enum — exactly the values the write
section (lines 302–317) persists. -/
structure PhaseResult where
  numExpGenes : List ℕ
  geneCorr : List (String × Option ℚ)
  score : List (Option ℚ)
  posTop : List String
  negTop : Option (List String)
  usedRaw : Bool
  agg : Aggregation
deriving DecidableEq, Repr

/-- Lines 256–300 of `compute_cytotrace`: mode conversion, `use_raw`
fallback (warning only), layer validation, gene counting, correlation,
positive-side scoring, optional negative-side scoring with the
`score + (max(inv_score) - inv_score)` combination, and min-max
normalization. Every fatal condition of the source surfaces here, before
anything is written to the store. -/
def computePhase (A : AnnDataModel) (corrFn : List (List ℚ) → List ℕ → List (Option ℚ))
    (gm hm : List ℚ → ℚ) (layer : Option String) (aggregation : String)
    (useRaw : Bool) (nPos : ℤ) (nNeg : Option ℤ) : Except CtError PhaseResult :=
  match Aggregation.ofString aggregation with
  | .error e => .error e
  | .ok agg =>
    let useRaw' := useRaw && A.raw.isSome
    if shouldRaiseLayer layer A.layers then .error (.layerKeyError layer)
    else
      let numExp := numExpGenesOf (mrawOf A useRaw').2
      let geneCorr := geneCorrOf A corrFn useRaw'
      match computeScore A geneCorr layer agg gm hm false nPos with
      | .error e => .error e
      | .ok (score, posTop) =>
        match nNeg with
        | none => .ok ⟨numExp, geneCorr, minmaxNormalize score, posTop, none, useRaw', agg⟩
        | some k =>
          match computeScore A geneCorr layer agg gm hm true k with
          | .error e => .error e
          | .ok (invScore, negTop) =>
            .ok ⟨numExp, geneCorr,
              minmaxNormalize
                (List.zipWith (fun p v => p + (maxQ invScore - v)) score invScore),
              posTop, some negTop, useRaw', agg⟩

/-- Lines 302–317 of `compute_cytotrace`: the write section. Persists the
score, the pseudotime `1 - score` (NaN stays NaN), the gene counts, the
correlation series aligned to `adata.var_names` (pandas index alignment:
genes absent from the series become NaN), the boolean correlate flags
(assigned `False` for the whole column, then `True` on the selected genes;
the negative column stays all-`False` when `n_neg_genes` is `None`), and
the parameters record. These are plain assignments: no failure can occur
here. -/
def writePhase (A : AnnDataModel) (layer : Option String) (r : PhaseResult) :
    AnnDataModel :=
  { A with
    obsCols :=
      setCol (setCol (setCol A.obsCols (keyCytotrace "score") r.score)
          (keyCytotrace "pseudotime") (r.score.map (Option.map (fun s => 1 - s))))
        (keyCytotrace "num_exp_genes") (r.numExpGenes.map (fun k => some (k : ℚ)))
    varColsQ :=
      setCol A.varColsQ (keyCytotrace "gene_corr")
        (A.varNames.map (fun g => (lookupCol r.geneCorr g).join))
    varColsB :=
      setCol (setCol A.varColsB (keyCytotrace "pos_correlates")
          (A.varNames.map (fun g => decide (g ∈ r.posTop))))
        (keyCytotrace "neg_correlates")
        (match r.negTop with
          | none => A.varNames.map (fun _ => false)
          | some nt => A.varNames.map (fun g => decide (g ∈ nt)))
    uns :=
      setCol A.uns (keyCytotrace "params")
        { aggregation := r.agg.toName
          layer := layer
          useRaw := r.usedRaw
          nPosGenes := r.posTop.length
          nNegGenes := match r.negTop with | none => 0 | some nt => nt.length } }

/-- Embedding of `CytoTRACEKernel.compute_cytotrace`: the computation phase (lines
256–300) followed, only on success, by the write section (lines 302–317)
applied to the store. -/
def computeCytotrace (A : AnnDataModel)
    (corrFn : List (List ℚ) → List ℕ → List (Option ℚ)) (gm hm : List ℚ → ℚ)
    (layer : Option String) (aggregation : String) (useRaw : Bool)
    (nPos : ℤ) (nNeg : Option ℤ) : Except CtError AnnDataModel :=
  match computePhase A corrFn gm hm layer aggregation useRaw nPos nNeg with
  | .error e => .error e
  | .ok r => .ok (writePhase A layer r)

/-! ## Association-table lemmas -/

theorem lookupCol_append {α : Type} (xs ys : List (String × α)) (k : String) :
    lookupCol (xs ++ ys) k =
      match lookupCol xs k with
      | some v => some v
      | none => lookupCol ys k := by
  induction xs with
  | nil => simp [lookupCol]
  | cons p rest ih =>
    by_cases hp : p.1 = k
    · simp [lookupCol, hp]
    · simpa [lookupCol, hp] using ih

theorem lookupCol_eq_none_iff {α : Type} (xs : List (String × α)) (k : String) :
    lookupCol xs k = none ↔ xs.any (fun p => decide (p.1 = k)) = false := by
  induction xs with
  | nil => simp [lookupCol]
  | cons p rest ih =>
    by_cases hp : p.1 = k
    · simp [lookupCol, hp]
    · simpa [lookupCol, hp] using ih

theorem lookupCol_map_replace {α : Type} (xs : List (String × α)) (k k' : String)
    (v : α) (h : k' ≠ k) :
    lookupCol (xs.map (fun p => if p.1 = k then (k, v) else p)) k' = lookupCol xs k' := by
  induction xs with
  | nil => rfl
  | cons p rest ih =>
    by_cases hp : p.1 = k
    · have h1 : ¬(k = k') := fun hh => h hh.symm
      have h2 : ¬(p.1 = k') := by rw [hp]; exact h1
      simp [lookupCol, hp, h1, h2, ih]
    · by_cases hp' : p.1 = k'
      · simp [lookupCol, hp, hp', h]
      · simp [lookupCol, hp, hp', ih]

theorem lookupCol_map_replace_self {α : Type} (xs : List (String × α)) (k : String)
    (v : α) (h : xs.any (fun p => decide (p.1 = k)) = true) :
    lookupCol (xs.map (fun p => if p.1 = k then (k, v) else p)) k = some v := by
  induction xs with
  | nil => simp at h
  | cons p rest ih =>
    by_cases hp : p.1 = k
    · simp [lookupCol, hp]
    · simp only [List.any_cons, Bool.or_eq_true] at h
      rcases h with h | h
      · exact absurd (of_decide_eq_true h) hp
      · simpa [lookupCol, hp] using ih h

theorem lookupCol_setCol_self {α : Type} (xs : List (String × α)) (k : String) (v : α) :
    lookupCol (setCol xs k v) k = some v := by
  unfold setCol
  by_cases hany : xs.any (fun p => decide (p.1 = k)) = true
  · simpa [hany] using lookupCol_map_replace_self xs k v hany
  · have hnone : lookupCol xs k = none :=
      (lookupCol_eq_none_iff xs k).mpr (Bool.not_eq_true _ ▸ hany)
    simp [hany, lookupCol_append, hnone, lookupCol]

theorem lookupCol_setCol_ne {α : Type} (xs : List (String × α)) (k k' : String) (v : α)
    (h : k' ≠ k) : lookupCol (setCol xs k v) k' = lookupCol xs k' := by
  unfold setCol
  by_cases hany : xs.any (fun p => decide (p.1 = k)) = true
  · simpa [hany] using lookupCol_map_replace xs k k' v h
  · rw [if_neg hany, lookupCol_append]
    cases hx : lookupCol xs k' <;> simp [lookupCol, h, h.symm]

/-! ## Concrete fixtures -/

/-- A concrete stand-in for the external `_correlation_test` routine. -/
def demoCorrFn : List (List ℚ) → List ℕ → List (Option ℚ) :=
  fun _ _ => [some 1, some (1/2)]

/-- A concrete stand-in for the external `gmean`/`hmean` library calls. -/
def zeroAgg : List ℚ → ℚ :=
  fun _ => 0

/-- A store whose two cells have identical expression, so that all combined
scores tie (the degenerate case); it also carries a stale correlate-flag
column from a previous run. -/
def degStore : AnnDataModel :=
  { varNames := ["g0", "g1"]
    X := [[1, 2], [1, 2]]
    layers := []
    raw := none
    obsCols := []
    varColsQ := []
    varColsB := [("ct_pos_correlates", [true, false])]
    uns := [] }

/-- C1: in the all-equal degenerate case, `compute_cytotrace` persists an
all-NaN score vector: lines 299–300 shift by the minimum and divide by the
maximum of the shifted scores, which is `0.0`, and numpy's `0.0 / 0.0`
produces NaN with only a `RuntimeWarning` — no defined constant vector is
substituted, contradicting the spec's requirement. Here both cells of
`degStore` have identical expression, every combined score is `3/2`, and
the persisted `ct_score` column is `[NaN, NaN]`. -/
theorem degenerate_scores_persist_nan :
    (computeCytotrace degStore demoCorrFn zeroAgg zeroAgg (some "X") "mean" false 2 none).map
      (fun A => lookupCol A.obsCols (keyCytotrace "score")) = .ok (some [none, none]) := by
  with_unfolding_all rfl

/-- C5 counterexample: gene `g0` is present in the gene index but has an
undefined (NaN) correlation, and `g1` is a valid gene — so fewer than the
requested `n_top_genes = 2` valid genes exist but at least one does. The
claim says the code proceeds with the reduced set and only warns; instead,
the NaN gene fills the top slice (NaNs sort last) and `_compute_score`
raises the NaN `ValueError`. -/
theorem select_top_genes_nan_fails_despite_valid_gene :
    selectTopGenes [("g0", none), ("g1", some 1)] ["g0", "g1"] false 2 =
      .error (.nanInTopGenes false 1) := by
  with_unfolding_all rfl

/-- C6: `compute_cytotrace` fails exactly when its computation phase (lines
256–300) fails, and on success the result is the write section applied in
one step to the original store — every fatal error is raised before any
write to `obs`/`var`/`uns`, so a failing run leaves the store exactly as it
was and no partial state is ever persisted. -/
theorem compute_cytotrace_errors_before_writes (A : AnnDataModel)
    (corrFn : List (List ℚ) → List ℕ → List (Option ℚ)) (gm hm : List ℚ → ℚ)
    (layer : Option String) (aggStr : String) (useRaw : Bool) (nPos : ℤ)
    (nNeg : Option ℤ) :
    (∀ e, computeCytotrace A corrFn gm hm layer aggStr useRaw nPos nNeg = .error e ↔
      computePhase A corrFn gm hm layer aggStr useRaw nPos nNeg = .error e) ∧
    (∀ r, computePhase A corrFn gm hm layer aggStr useRaw nPos nNeg = .ok r →
      computeCytotrace A corrFn gm hm layer aggStr useRaw nPos nNeg =
        .ok (writePhase A layer r)) := by
  constructor
  · intro e
    cases h : computePhase A corrFn gm hm layer aggStr useRaw nPos nNeg <;>
      simp [computeCytotrace, h]
  · intro r h
    simp [computeCytotrace, h]

/-- Witness for `compute_cytotrace_errors_before_writes`: a non-positive
gene count on the degenerate store errors out with the store untouched. -/
theorem compute_cytotrace_errors_before_writes_w :
    computeCytotrace degStore demoCorrFn zeroAgg zeroAgg (some "X") "mean" false 0 none =
      .error (.nonPositiveGenes false 0) :=
  ((compute_cytotrace_errors_before_writes degStore demoCorrFn zeroAgg zeroAgg
      (some "X") "mean" false 0 none).1 _).mpr (by with_unfolding_all rfl)

/-- A non-degenerate fixture store: two cells with distinct expression, one
layer, and stale correlate-flag columns left over from a previous run. -/
def demoStore : AnnDataModel :=
  { varNames := ["g0", "g1"]
    X := [[4, 1], [2, 3]]
    layers := [("Ms", [[4, 1], [2, 3]])]
    raw := none
    obsCols := [("old", [some 7, some 8])]
    varColsQ := []
    varColsB := [("ct_pos_correlates", [true, true]), ("ct_neg_correlates", [true, true])]
    uns := [] }

/-- A concrete correlation routine giving `g0` correlation `1` and `g1`
correlation `-1`. -/
def demoCorrFn2 : List (List ℚ) → List ℕ → List (Option ℚ) :=
  fun _ _ => [some 1, some (-1)]

/-- Projection of a successful phase result (arbitrary default on error). -/
def phaseOf (x : Except CtError PhaseResult) : PhaseResult :=
  match x with
  | .ok r => r
  | .error _ => ⟨[], [], [], [], none, false, .mean⟩

/-- Projection of a successful store result (falls back to the given store
on error). -/
def adataOf (x : Except CtError AnnDataModel) (dflt : AnnDataModel) : AnnDataModel :=
  match x with
  | .ok a => a
  | .error _ => dflt

/-- The phase result of a successful run on `demoStore` with one positive
and one negative top gene. -/
def demoPhase : PhaseResult :=
  phaseOf (computePhase demoStore demoCorrFn2 zeroAgg zeroAgg (some "X") "mean" false 1 (some 1))

/-- The store persisted by the same successful run on `demoStore`. -/
def demoOut : AnnDataModel :=
  adataOf
    (computeCytotrace demoStore demoCorrFn2 zeroAgg zeroAgg (some "X") "mean" false 1 (some 1))
    demoStore

/-- C7: the score that `compute_cytotrace` normalizes and persists is built
from the positive-side aggregate `pos` and (when `n_neg_genes` is given) the
negative-side aggregate `inv` by the formula
`pos + (max(inv) - inv)` per cell (line 298); when `n_neg_genes` is `None`
only the positive aggregate contributes. -/
theorem combined_score_formula (A : AnnDataModel)
    (corrFn : List (List ℚ) → List ℕ → List (Option ℚ)) (gm hm : List ℚ → ℚ)
    (layer : Option String) (aggStr : String) (useRaw : Bool) (nPos k : ℤ)
    (agg : Aggregation) (r r2 : PhaseResult) (pos inv : List ℚ)
    (ptop ntop : List String)
    (hAgg : Aggregation.ofString aggStr = .ok agg) :
    (computeScore A (geneCorrOf A corrFn (useRaw && A.raw.isSome)) layer agg gm hm false nPos =
        .ok (pos, ptop) →
      computeScore A (geneCorrOf A corrFn (useRaw && A.raw.isSome)) layer agg gm hm true k =
        .ok (inv, ntop) →
      computePhase A corrFn gm hm layer aggStr useRaw nPos (some k) = .ok r →
      r.score = minmaxNormalize (List.zipWith (fun p v => p + (maxQ inv - v)) pos inv)) ∧
    (computeScore A (geneCorrOf A corrFn (useRaw && A.raw.isSome)) layer agg gm hm false nPos =
        .ok (pos, ptop) →
      computePhase A corrFn gm hm layer aggStr useRaw nPos none = .ok r2 →
      r2.score = minmaxNormalize pos) := by
  constructor
  · intro h1 h2 hp
    unfold computePhase at hp
    rw [hAgg] at hp
    by_cases hl : shouldRaiseLayer layer A.layers = true
    · simp [hl] at hp
    · simp only [hl, Bool.false_eq_true, if_false, h1, h2] at hp
      injection hp with hp
      rw [show r = _ from hp.symm]
  · intro h1 hp
    unfold computePhase at hp
    rw [hAgg] at hp
    by_cases hl : shouldRaiseLayer layer A.layers = true
    · simp [hl] at hp
    · simp only [hl, Bool.false_eq_true, if_false, h1] at hp
      injection hp with hp
      rw [show r2 = _ from hp.symm]

/-- Witness for `combined_score_formula` on the concrete `demoStore` run:
positive aggregate `[4, 2]`, negative aggregate `[1, 3]`. -/
theorem combined_score_formula_w :
    demoPhase.score =
      minmaxNormalize (List.zipWith (fun p v => p + (maxQ [1, 3] - v)) [4, 2] [1, 3]) :=
  (combined_score_formula demoStore demoCorrFn2 zeroAgg zeroAgg (some "X") "mean" false
      1 1 .mean demoPhase demoPhase [4, 2] [1, 3] ["g0"] ["g1"] rfl).1
    (by with_unfolding_all rfl) (by with_unfolding_all rfl) (by with_unfolding_all rfl)

/-- C8: for every successful run, the persisted pseudotime column is exactly
`1 - score` elementwise (line 303), with NaN entries staying NaN. -/
theorem pseudotime_is_one_minus_score (A : AnnDataModel)
    (corrFn : List (List ℚ) → List ℕ → List (Option ℚ)) (gm hm : List ℚ → ℚ)
    (layer : Option String) (aggStr : String) (useRaw : Bool) (nPos : ℤ)
    (nNeg : Option ℤ) (A' : AnnDataModel)
    (h : computeCytotrace A corrFn gm hm layer aggStr useRaw nPos nNeg = .ok A') :
    lookupCol A'.obsCols (keyCytotrace "pseudotime") =
      (lookupCol A'.obsCols (keyCytotrace "score")).map
        (List.map (Option.map (fun s => 1 - s))) := by
  unfold computeCytotrace at h
  cases hp : computePhase A corrFn gm hm layer aggStr useRaw nPos nNeg with
  | error e => rw [hp] at h; exact absurd h (by simp)
  | ok r =>
    rw [hp] at h
    injection h with h
    subst h
    have hpt : lookupCol (writePhase A layer r).obsCols (keyCytotrace "pseudotime") =
        some (r.score.map (Option.map (fun s => 1 - s))) := by
      unfold writePhase
      rw [lookupCol_setCol_ne _ _ _ _ (by decide), lookupCol_setCol_self]
    have hsc : lookupCol (writePhase A layer r).obsCols (keyCytotrace "score") =
        some r.score := by
      unfold writePhase
      rw [lookupCol_setCol_ne _ _ _ _ (by decide), lookupCol_setCol_ne _ _ _ _ (by decide),
        lookupCol_setCol_self]
    rw [hpt, hsc]
    rfl

/-- Witness for `pseudotime_is_one_minus_score` on the concrete successful
`demoStore` run. -/
theorem pseudotime_is_one_minus_score_w :
    lookupCol demoOut.obsCols (keyCytotrace "pseudotime") =
      (lookupCol demoOut.obsCols (keyCytotrace "score")).map
        (List.map (Option.map (fun s => 1 - s))) :=
  pseudotime_is_one_minus_score demoStore demoCorrFn2 zeroAgg zeroAgg (some "X") "mean"
    false 1 (some 1) demoOut (by with_unfolding_all rfl)

/-- C10: every successful run rewrites both correlate-flag columns from
scratch (lines 306–310): the positive flag column is exactly the membership
mask of that run's selected positive genes, and the negative flag column is
the membership mask of the selected negative genes, or all-`False` when
`n_neg_genes` is `None` — nothing from any previous run survives. -/
theorem correlate_flags_fully_reset (A : AnnDataModel)
    (corrFn : List (List ℚ) → List ℕ → List (Option ℚ)) (gm hm : List ℚ → ℚ)
    (layer : Option String) (aggStr : String) (useRaw : Bool) (nPos : ℤ)
    (nNeg : Option ℤ) (r : PhaseResult) (A' : AnnDataModel)
    (hp : computePhase A corrFn gm hm layer aggStr useRaw nPos nNeg = .ok r)
    (h : computeCytotrace A corrFn gm hm layer aggStr useRaw nPos nNeg = .ok A') :
    lookupCol A'.varColsB (keyCytotrace "pos_correlates") =
      some (A.varNames.map (fun g => decide (g ∈ r.posTop))) ∧
    lookupCol A'.varColsB (keyCytotrace "neg_correlates") =
      some (match r.negTop with
        | none => A.varNames.map (fun _ => false)
        | some nt => A.varNames.map (fun g => decide (g ∈ nt))) := by
  unfold computeCytotrace at h
  rw [hp] at h
  injection h with h
  subst h
  constructor
  · unfold writePhase
    rw [lookupCol_setCol_ne _ _ _ _ (by decide), lookupCol_setCol_self]
  · unfold writePhase
    rw [lookupCol_setCol_self]

/-- Witness for `correlate_flags_fully_reset` on the concrete `demoStore`
run, whose store starts with stale all-`True` flag columns. -/
theorem correlate_flags_fully_reset_w :
    lookupCol demoOut.varColsB (keyCytotrace "pos_correlates") =
      some (demoStore.varNames.map (fun g => decide (g ∈ demoPhase.posTop))) ∧
    lookupCol demoOut.varColsB (keyCytotrace "neg_correlates") =
      some (match demoPhase.negTop with
        | none => demoStore.varNames.map (fun _ => false)
        | some nt => demoStore.varNames.map (fun g => decide (g ∈ nt))) :=
  correlate_flags_fully_reset demoStore demoCorrFn2 zeroAgg zeroAgg (some "X") "mean"
    false 1 (some 1) demoPhase demoOut (by with_unfolding_all rfl) (by with_unfolding_all rfl)

/-- C9: the upfront validation (line 261) rejects with `KeyError` exactly
the layer names that are neither `None` nor `"X"` nor a key of
`adata.layers`; in particular `layer=None` passes it, and a run with
`layer=None` fails only later, inside `_compute_score`, when the
aggregation step indexes `adata.layers[None]` (line 172) — after the
selection work has succeeded (the selection hypothesis below), with the
distinct later `KeyError`, and still before any store write (the error is
the pipeline result, so the store is untouched). -/
theorem layer_none_passes_validation_fails_at_aggregation
    (layers : List (String × List (List ℚ))) (l : Option String) (A : AnnDataModel)
    (corr : List (String × Option ℚ)) (agg : Aggregation) (gm hm : List ℚ → ℚ)
    (ascending : Bool) (n : ℤ) (tg : List String)
    (corrFn : List (List ℚ) → List ℕ → List (Option ℚ)) (aggStr : String)
    (useRaw : Bool) (nPos : ℤ) (nNeg : Option ℤ) :
    shouldRaiseLayer none layers = false ∧
    (shouldRaiseLayer l layers = true ↔
      l ≠ none ∧ l ≠ some "X" ∧ (∀ s, l = some s → lookupCol layers s = none)) ∧
    (selectTopGenes corr A.varNames ascending n = .ok tg →
      computeScore A corr none agg gm hm ascending n =
        .error (.layerLookupKeyError none)) ∧
    (Aggregation.ofString aggStr = .ok agg →
      selectTopGenes (geneCorrOf A corrFn (useRaw && A.raw.isSome)) A.varNames false nPos =
        .ok tg →
      computeCytotrace A corrFn gm hm none aggStr useRaw nPos nNeg =
        .error (.layerLookupKeyError none)) := by
  refine ⟨rfl, ?_, ?_, ?_⟩
  · cases l with
    | none => simp [shouldRaiseLayer]
    | some s =>
      by_cases hs : s = "X"
      · subst hs
        simp [shouldRaiseLayer]
      · simp [shouldRaiseLayer, hs, lookupCol_eq_none_iff]
  · intro hsel
    simp [computeScore, hsel, getLayerMatrix]
  · intro hAgg hsel
    simp [computeCytotrace, computePhase, hAgg, shouldRaiseLayer, computeScore, hsel,
      getLayerMatrix]

/-- Witness for `layer_none_passes_validation_fails_at_aggregation`: on the
`demoStore` run with `layer=None`, the selection succeeds and the pipeline
then fails with the later `KeyError` and no store mutation. -/
theorem layer_none_passes_validation_fails_at_aggregation_w :
    computeCytotrace demoStore demoCorrFn2 zeroAgg zeroAgg none "mean" false 1 none =
      .error (.layerLookupKeyError none) :=
  (layer_none_passes_validation_fails_at_aggregation demoStore.layers (some "L2")
      demoStore (geneCorrOf demoStore demoCorrFn2 false) .mean zeroAgg zeroAgg false 1
      ["g0"] demoCorrFn2 "mean" false 1 none).2.2.2 rfl (by with_unfolding_all rfl)

/-- C5 (amended): the selection step fails exactly when the requested count
is non-positive, the top slice contains a NaN correlation, or the slice is
empty; the proceed-with-a-reduced-set-and-warn fallback applies exactly when
the (possibly shorter than requested) slice is NaN-free and nonempty — a
NaN-correlated gene inside the slice causes the `ValueError` even when at
least one valid gene exists, because NaN labels sort last and fill the
unused part of the slice. -/
theorem select_top_genes_error_characterization (corr : List (String × Option ℚ))
    (vn : List String) (ascending : Bool) (n : ℤ) :
    ((∃ e, selectTopGenes corr vn ascending n = .error e) ↔
      (n ≤ 0 ∨
        (topGenesOf corr vn ascending n.toNat).filter (fun g => corrIsNaN corr g) ≠ [] ∨
        topGenesOf corr vn ascending n.toNat = [])) ∧
    (0 < n →
      (topGenesOf corr vn ascending n.toNat).filter (fun g => corrIsNaN corr g) = [] →
      topGenesOf corr vn ascending n.toNat ≠ [] →
      selectTopGenes corr vn ascending n =
        .ok (topGenesOf corr vn ascending n.toNat)) := by
  constructor
  · unfold selectTopGenes
    by_cases h0 : n ≤ 0
    · simp [h0]
    · simp only [h0, if_false]
      by_cases hnan :
          (topGenesOf corr vn ascending n.toNat).filter (fun g => corrIsNaN corr g) = []
      · have hlen :
            ((topGenesOf corr vn ascending n.toNat).filter
              (fun g => corrIsNaN corr g)).length = 0 := by
          rw [hnan]; rfl
        by_cases hempty : topGenesOf corr vn ascending n.toNat = []
        · simp [hlen, hnan, hempty, List.isEmpty_iff]
        · simp [hlen, hnan, hempty, List.isEmpty_iff]
      · have hlen :
            ((topGenesOf corr vn ascending n.toNat).filter
              (fun g => corrIsNaN corr g)).length ≠ 0 := by
          simpa [List.length_eq_zero] using hnan
        simp [hlen, hnan, h0]
  · intro h0 hnan hempty
    have hlen :
        ((topGenesOf corr vn ascending n.toNat).filter
          (fun g => corrIsNaN corr g)).length = 0 := by
      rw [hnan]; rfl
    simp [selectTopGenes, not_le.mpr h0, hlen, hempty, List.isEmpty_iff]

/-- Witness for `select_top_genes_error_characterization`: with a single
valid gene and a request for one gene, the selection succeeds with the
computed slice. -/
theorem select_top_genes_error_characterization_w :
    selectTopGenes [("g0", some 1)] ["g0"] false 1 =
      .ok (topGenesOf [("g0", some 1)] ["g0"] false (Int.toNat 1)) :=
  (select_top_genes_error_characterization [("g0", some 1)] ["g0"] false 1).2
    (by decide) (by with_unfolding_all rfl) (by decide)

/-! ## Top-gene selection: order and content properties (C4) -/

theorem lookupCol_isSome_of_mem_keys {α : Type} (xs : List (String × α)) (g : String)
    (h : g ∈ xs.map Prod.fst) : (lookupCol xs g).isSome := by
  induction xs with
  | nil => simp at h
  | cons p rest ih =>
    by_cases hp : p.1 = g
    · simp [lookupCol, hp]
    · rw [List.map_cons, List.mem_cons] at h
      rcases h with h | h
      · exact absurd h.symm hp
      · simpa [lookupCol, hp] using ih h

theorem lookupCol_eq_of_mem_of_nodup {α : Type} (xs : List (String × α)) (g : String)
    (v : α) (hnd : (xs.map Prod.fst).Nodup) (h : (g, v) ∈ xs) :
    lookupCol xs g = some v := by
  induction xs with
  | nil => cases h
  | cons p rest ih =>
    rcases List.mem_cons.mp h with h | h
    · rw [← h]
      simp [lookupCol]
    · have hg : g ∈ rest.map Prod.fst := List.mem_map.mpr ⟨(g, v), h, rfl⟩
      rw [List.map_cons] at hnd
      have hnd' := List.nodup_cons.mp hnd
      have hp : ¬(p.1 = g) := fun he => hnd'.1 (he ▸ hg)
      simp only [lookupCol, hp, if_false]
      exact ih hnd'.2 h

theorem mem_nonNanPairs (corr : List (String × Option ℚ)) (p : String × ℚ)
    (h : p ∈ nonNanPairs corr) : (p.1, some p.2) ∈ corr := by
  rw [nonNanPairs, List.mem_filterMap] at h
  obtain ⟨a, ha, hfa⟩ := h
  cases a2 : a.2 with
  | none => rw [a2] at hfa; simp at hfa
  | some q =>
    rw [a2] at hfa
    simp only [Option.map_some'] at hfa
    have hpq : p = (a.1, q) := (Option.some.inj hfa).symm
    subst hpq
    have : ((a.1, some q) : String × Option ℚ) = a := by rw [← a2]
    rw [this]
    exact ha

theorem mem_sortedNonNan (corr : List (String × Option ℚ)) (p : String × ℚ)
    (h : p ∈ sortedNonNan corr) : (p.1, some p.2) ∈ corr :=
  mem_nonNanPairs corr p ((List.perm_insertionSort sndLe (nonNanPairs corr)).mem_iff.mp h)

theorem mem_sortedNonNanDesc (corr : List (String × Option ℚ)) (p : String × ℚ)
    (h : p ∈ sortedNonNanDesc corr) : (p.1, some p.2) ∈ corr := by
  have h1 : p ∈ List.insertionSort sndLe (nonNanPairs corr).reverse :=
    List.mem_reverse.mp h
  have h2 : p ∈ (nonNanPairs corr).reverse :=
    (List.perm_insertionSort sndLe _).mem_iff.mp h1
  exact mem_nonNanPairs corr p (List.mem_reverse.mp h2)

theorem mem_nanNames (corr : List (String × Option ℚ)) (g : String)
    (h : g ∈ nanNames corr) : (g, (none : Option ℚ)) ∈ corr := by
  unfold nanNames at h
  rw [List.mem_map] at h
  obtain ⟨p, hp, rfl⟩ := h
  have hpf := List.mem_filter.mp hp
  have h2 : p.2 = none := Option.isNone_iff_eq_none.mp (by simpa using hpf.2)
  have h3 : (p.1, (none : Option ℚ)) = p := by rw [← h2]
  rw [h3]
  exact hpf.1

theorem mem_sortValues_keys (corr : List (String × Option ℚ)) (asc : Bool) (g : String)
    (h : g ∈ sortValues corr asc) : g ∈ corr.map Prod.fst := by
  unfold sortValues at h
  rw [List.mem_append] at h
  rcases h with h | h
  · rw [List.mem_map] at h
    obtain ⟨p, hp, rfl⟩ := h
    have hp2 : (p.1, some p.2) ∈ corr := by
      cases asc with
      | true => exact mem_sortedNonNan corr p hp
      | false => exact mem_sortedNonNanDesc corr p hp
    exact List.mem_map.mpr ⟨(p.1, some p.2), hp2, rfl⟩
  · exact List.mem_map.mpr ⟨(g, none), mem_nanNames corr g h, rfl⟩

theorem pairwise_pair_sublist {α : Type} (S : List α) :
    S.Pairwise (fun p q => List.Sublist [p, q] S) := by
  induction S with
  | nil => exact List.Pairwise.nil
  | cons x l ih =>
    refine List.pairwise_cons.mpr ⟨?_, ?_⟩
    · intro y hy
      exact List.Sublist.cons₂ x (List.singleton_sublist.mpr hy)
    · exact ih.imp (fun h => h.cons x)

theorem sublist_pair_or {α : Type} (L : List α) (p q : α) (hp : p ∈ L) (hq : q ∈ L)
    (hne : p ≠ q) : List.Sublist [p, q] L ∨ List.Sublist [q, p] L := by
  induction L with
  | nil => cases hp
  | cons x l ih =>
    by_cases hxp : x = p
    · subst hxp
      have hql : q ∈ l := by
        rcases List.mem_cons.mp hq with h | h
        · exact absurd h.symm hne
        · exact h
      exact Or.inl (List.Sublist.cons₂ x (List.singleton_sublist.mpr hql))
    · by_cases hxq : x = q
      · subst hxq
        have hpl : p ∈ l := by
          rcases List.mem_cons.mp hp with h | h
          · exact absurd h.symm hxp
          · exact h
        exact Or.inr (List.Sublist.cons₂ x (List.singleton_sublist.mpr hpl))
      · have hpl : p ∈ l := by
          rcases List.mem_cons.mp hp with h | h
          · exact absurd h.symm hxp
          · exact h
        have hql : q ∈ l := by
          rcases List.mem_cons.mp hq with h | h
          · exact absurd h.symm hxq
          · exact h
        rcases ih hpl hql with h | h
        · exact Or.inl (h.cons x)
        · exact Or.inr (h.cons x)

theorem sublist_pair_antisymm {α : Type} (p q : α) :
    ∀ S : List α, S.Nodup → List.Sublist [p, q] S → List.Sublist [q, p] S → p = q := by
  intro S
  induction S with
  | nil =>
    intro _ h1 _
    cases h1
  | cons x l ih =>
    intro hnd h1 h2
    have hx := List.nodup_cons.mp hnd
    cases h1 with
    | cons _ h1' =>
      cases h2 with
      | cons _ h2' => exact ih hx.2 h1' h2'
      | cons₂ _ h2' =>
        exact absurd (h1'.subset (by simp)) hx.1
    | cons₂ _ h1' =>
      cases h2 with
      | cons _ h2' =>
        exact absurd (h2'.subset (by simp)) hx.1
      | cons₂ _ h2' => rfl

theorem pair_sublist_nonNanPairs (corr : List (String × Option ℚ)) (p q : String × ℚ)
    (h : List.Sublist [p, q] (nonNanPairs corr)) :
    List.Sublist [(p.1, some p.2), (q.1, some q.2)] corr := by
  induction corr with
  | nil =>
    rw [show nonNanPairs [] = [] from rfl] at h
    cases h
  | cons a rest ih =>
    cases a2 : a.2 with
    | none =>
      rw [show nonNanPairs (a :: rest) = nonNanPairs rest from by
        simp [nonNanPairs, List.filterMap_cons, a2]] at h
      exact (ih h).cons a
    | some v =>
      rw [show nonNanPairs (a :: rest) = (a.1, v) :: nonNanPairs rest from by
        simp [nonNanPairs, List.filterMap_cons, a2]] at h
      cases h with
      | cons _ h' => exact (ih h').cons a
      | cons₂ _ h' =>
        have hq : (q.1, some q.2) ∈ rest :=
          mem_nonNanPairs rest q (List.singleton_sublist.mp h')
        have ha : ((a.1, some v) : String × Option ℚ) = a := by rw [← a2]
        rw [show (((a.1, v) : String × ℚ).1, some ((a.1, v) : String × ℚ).2) =
          ((a.1, some v) : String × Option ℚ) from rfl, ha]
        exact List.Sublist.cons₂ a (List.singleton_sublist.mpr hq)

theorem nonNanPairs_keys_sublist (corr : List (String × Option ℚ)) :
    List.Sublist ((nonNanPairs corr).map Prod.fst) (corr.map Prod.fst) := by
  induction corr with
  | nil => simp [nonNanPairs]
  | cons a rest ih =>
    cases a2 : a.2 with
    | none =>
      rw [show nonNanPairs (a :: rest) = nonNanPairs rest from by
        simp [nonNanPairs, List.filterMap_cons, a2]]
      rw [List.map_cons]
      exact ih.cons a.1
    | some v =>
      rw [show nonNanPairs (a :: rest) = (a.1, v) :: nonNanPairs rest from by
        simp [nonNanPairs, List.filterMap_cons, a2]]
      rw [List.map_cons, List.map_cons]
      exact List.Sublist.cons₂ a.1 ih

theorem nonNanPairs_nodup (corr : List (String × Option ℚ))
    (hnd : (corr.map Prod.fst).Nodup) : (nonNanPairs corr).Nodup :=
  (hnd.sublist (nonNanPairs_keys_sublist corr)).of_map

/-- Stability of the modelled ascending argsort, in lexicographic form: in
the sorted output, any earlier element has a strictly smaller value than any
later one, or the two values tie and the earlier element already preceded
the later one in the input. -/
theorem pairwise_lex_insertionSort (L : List (String × ℚ)) (hnd : L.Nodup) :
    (List.insertionSort sndLe L).Pairwise
      (fun p q => p.2 < q.2 ∨ (p.2 = q.2 ∧ List.Sublist [p, q] L)) := by
  have hperm := List.perm_insertionSort sndLe L
  have hsorted : (List.insertionSort sndLe L).Pairwise sndLe :=
    List.sorted_insertionSort sndLe L
  have hnodS : (List.insertionSort sndLe L).Nodup := hperm.nodup_iff.mpr hnd
  have hneS : (List.insertionSort sndLe L).Pairwise (fun a b => a ≠ b) := hnodS
  have hsubS := pairwise_pair_sublist (List.insertionSort sndLe L)
  refine ((hsorted.and hsubS).and hneS).imp ?_
  rintro p q ⟨⟨hle, hsub⟩, hne⟩
  rcases lt_or_eq_of_le (show p.2 ≤ q.2 from hle) with hlt | heq
  · exact Or.inl hlt
  · refine Or.inr ⟨heq, ?_⟩
    have hpL : p ∈ L := hperm.mem_iff.mp (hsub.subset (by simp))
    have hqL : q ∈ L := hperm.mem_iff.mp (hsub.subset (by simp))
    rcases sublist_pair_or L p q hpL hqL hne with h' | h'
    · exact h'
    · exfalso
      have hqp : List.Sublist [q, p] (List.insertionSort sndLe L) :=
        List.pair_sublist_insertionSort (show sndLe q p from le_of_eq heq.symm) h'
      exact hne (sublist_pair_antisymm p q _ hnodS hsub hqp)

/-- Stability of the modelled descending sort (reverse, ascending argsort,
reverse): values strictly decrease along the output, or they tie and the
earlier element already preceded the later one in the input — the double
reversal cancels out on tie groups. -/
theorem pairwise_lex_desc (L : List (String × ℚ)) (hnd : L.Nodup) :
    ((List.insertionSort sndLe L.reverse).reverse).Pairwise
      (fun p q => q.2 < p.2 ∨ (p.2 = q.2 ∧ List.Sublist [p, q] L)) := by
  have h := pairwise_lex_insertionSort L.reverse (List.nodup_reverse.mpr hnd)
  have h2 : ((List.insertionSort sndLe L.reverse).reverse).Pairwise
      (fun p q => q.2 < p.2 ∨ (q.2 = p.2 ∧ List.Sublist [q, p] L.reverse)) :=
    List.pairwise_reverse.mpr h
  refine h2.imp ?_
  rintro p q (h' | ⟨heq, hsub⟩)
  · exact Or.inl h'
  · refine Or.inr ⟨heq.symm, ?_⟩
    have := hsub.reverse
    simpa using this

/-- Transport of the lexicographic pairwise property from a sorted pairs
list to the index-label list that `sort_values(...).index` yields (sorted
labels followed by the NaN labels), phrased through `lookupCol` so that it
speaks about the persisted correlation series. -/
theorem pairwise_names_of_pairs (corr : List (String × Option ℚ))
    (P : List (String × ℚ)) (vRel : ℚ → ℚ → Prop)
    (hnd : (corr.map Prod.fst).Nodup)
    (hmemP : ∀ p ∈ P, p ∈ nonNanPairs corr)
    (hpw : P.Pairwise (fun p q =>
      vRel p.2 q.2 ∨ (p.2 = q.2 ∧ List.Sublist [p, q] (nonNanPairs corr)))) :
    (P.map Prod.fst ++ nanNames corr).Pairwise (fun a b => ∀ x y : ℚ,
      lookupCol corr a = some (some x) → lookupCol corr b = some (some y) →
      vRel x y ∨ (x = y ∧ List.Sublist [(a, some x), (b, some y)] corr)) := by
  rw [List.pairwise_append]
  refine ⟨?_, ?_, ?_⟩
  · rw [List.pairwise_map]
    refine (hpw.and (pairwise_pair_sublist P)).imp ?_
    rintro p q ⟨hlex, hsubP⟩
    intro x y hx hy
    have hpP : p ∈ P := hsubP.subset (by simp)
    have hqP : q ∈ P := hsubP.subset (by simp)
    have hlp : lookupCol corr p.1 = some (some p.2) :=
      lookupCol_eq_of_mem_of_nodup _ _ _ hnd (mem_nonNanPairs corr p (hmemP p hpP))
    have hlq : lookupCol corr q.1 = some (some q.2) :=
      lookupCol_eq_of_mem_of_nodup _ _ _ hnd (mem_nonNanPairs corr q (hmemP q hqP))
    have hxe : x = p.2 := Option.some.inj (Option.some.inj (hx.symm.trans hlp))
    have hye : y = q.2 := Option.some.inj (Option.some.inj (hy.symm.trans hlq))
    subst hxe
    subst hye
    rcases hlex with h | ⟨heq, hsubL⟩
    · exact Or.inl h
    · exact Or.inr ⟨heq, pair_sublist_nonNanPairs corr p q hsubL⟩
  · refine List.pairwise_of_forall_mem_list ?_
    intro a ha b _ x _ hx _
    have hla : lookupCol corr a = some none :=
      lookupCol_eq_of_mem_of_nodup _ _ _ hnd (mem_nanNames corr a ha)
    rw [hla] at hx
    exact absurd (Option.some.inj hx) (by simp)
  · intro a _ b hb x y _ hy
    have hlb : lookupCol corr b = some none :=
      lookupCol_eq_of_mem_of_nodup _ _ _ hnd (mem_nanNames corr b hb)
    rw [hlb] at hy
    exact absurd (Option.some.inj hy) (by simp)

/-- C4: the top-gene selection returns at most `n_top_genes` identifiers;
on success it includes no identifier with an undefined (NaN) correlation;
and it is sorted by correlation in the requested direction with ties broken
by original gene order: for any two selected genes `a` before `b` with
correlations `x` and `y`, either the correlations are strictly ordered in
the requested direction (ascending for negative correlates, descending for
positive ones), or they tie and `a`'s entry precedes `b`'s entry in the
stored correlation series. The descending sort is stable because pandas
`nargsort` reverses the non-NaN values and their indices before the
ascending argsort and reverses the indexer after; the underlying argsort is
modelled as stable (pandas's default `kind="quicksort"` strictly leaves tie
order unspecified). -/
theorem top_genes_selection_stable_sorted (corr : List (String × Option ℚ))
    (vn : List String) (ascending : Bool) (n : ℕ) (nI : ℤ) (tg : List String) :
    (topGenesOf corr vn ascending n).length ≤ n ∧
    (selectTopGenes corr vn ascending nI = .ok tg →
      ∀ g ∈ tg, ∃ q : ℚ, lookupCol corr g = some (some q)) ∧
    ((corr.map Prod.fst).Nodup →
      (topGenesOf corr vn true n).Pairwise (fun a b => ∀ x y : ℚ,
        lookupCol corr a = some (some x) → lookupCol corr b = some (some y) →
        x < y ∨ (x = y ∧ List.Sublist [(a, some x), (b, some y)] corr))) ∧
    ((corr.map Prod.fst).Nodup →
      (topGenesOf corr vn false n).Pairwise (fun a b => ∀ x y : ℚ,
        lookupCol corr a = some (some x) → lookupCol corr b = some (some y) →
        y < x ∨ (x = y ∧ List.Sublist [(a, some x), (b, some y)] corr))) := by
  refine ⟨?_, ?_, ?_, ?_⟩
  · exact le_trans (le_of_eq (by rw [topGenesOf])) (List.length_take_le n _)
  · intro hok g hg
    unfold selectTopGenes at hok
    by_cases h0 : nI ≤ 0
    · simp [h0] at hok
    · simp only [h0, if_false] at hok
      by_cases hlen : ((topGenesOf corr vn ascending nI.toNat).filter
          (fun g => corrIsNaN corr g)).length ≠ 0
      · simp [hlen] at hok
      · have hfil : (topGenesOf corr vn ascending nI.toNat).filter
            (fun g => corrIsNaN corr g) = [] :=
          List.length_eq_zero.mp (not_not.mp hlen)
        by_cases hempty : (topGenesOf corr vn ascending nI.toNat).isEmpty = true
        · simp [hlen, hempty] at hok
        · simp only [hlen, hempty, if_false, ite_false] at hok
          injection hok with hok
          subst hok
          have hfb := List.filter_eq_nil_iff.mp hfil
          have hsv : g ∈ sortValues corr ascending :=
            List.mem_of_mem_filter (List.mem_of_mem_take hg)
          have hkeys : g ∈ corr.map Prod.fst := mem_sortValues_keys corr ascending g hsv
          have hsome := lookupCol_isSome_of_mem_keys corr g hkeys
          cases hx : lookupCol corr g with
          | none => rw [hx] at hsome; simp at hsome
          | some o =>
            cases o with
            | none =>
              exact absurd (by simp [corrIsNaN, hx] : corrIsNaN corr g = true)
                (by simpa using hfb g hg)
            | some q => exact ⟨q, rfl⟩
  · intro hnd
    have h := pairwise_names_of_pairs corr (sortedNonNan corr) (fun x y => x < y) hnd
      (fun p hp => (List.perm_insertionSort sndLe (nonNanPairs corr)).mem_iff.mp hp)
      (pairwise_lex_insertionSort (nonNanPairs corr) (nonNanPairs_nodup corr hnd))
    exact h.sublist ((List.take_sublist _ _).trans (List.filter_sublist _))
  · intro hnd
    have h := pairwise_names_of_pairs corr (sortedNonNanDesc corr) (fun x y => y < x) hnd
      (fun p hp => by
        have h1 : p ∈ List.insertionSort sndLe (nonNanPairs corr).reverse :=
          List.mem_reverse.mp hp
        exact List.mem_reverse.mp
          ((List.perm_insertionSort sndLe _).mem_iff.mp h1))
      (pairwise_lex_desc (nonNanPairs corr) (nonNanPairs_nodup corr hnd))
    exact h.sublist ((List.take_sublist _ _).trans (List.filter_sublist _))

/-- Correlation series for the C4 witness: two genes tied at correlation
`1` with a NaN gene between them. -/
def tieCorr : List (String × Option ℚ) :=
  [("a", some 1), ("b", none), ("c", some 1)]

/-- Witness for `top_genes_selection_stable_sorted` on a descending
selection with a genuine tie: the slice has at most two identifiers, both
returned genes have defined correlations, and the tied genes `a` and `c`
come back in original order (`topGenesOf` evaluates to `["a", "c"]`), as
the pairwise-lexicographic conclusion demands. -/
theorem top_genes_selection_stable_sorted_w :
    (topGenesOf tieCorr ["a", "c"] false 2).length ≤ 2 ∧
    (∀ g ∈ (["a", "c"] : List String), ∃ q : ℚ, lookupCol tieCorr g = some (some q)) ∧
    (topGenesOf tieCorr ["a", "c"] false 2).Pairwise (fun a b => ∀ x y : ℚ,
      lookupCol tieCorr a = some (some x) → lookupCol tieCorr b = some (some y) →
      y < x ∨ (x = y ∧ List.Sublist [(a, some x), (b, some y)] tieCorr)) :=
  ⟨(top_genes_selection_stable_sorted tieCorr ["a", "c"] false 2 2 ["a", "c"]).1,
   (top_genes_selection_stable_sorted tieCorr ["a", "c"] false 2 2 ["a", "c"]).2.1
     (by with_unfolding_all rfl),
   (top_genes_selection_stable_sorted tieCorr ["a", "c"] false 2 2 ["a", "c"]).2.2.2
     (by decide)⟩
